import Mathlib

/-!
Shallow embedding of `kandown`'s task persistence layer
(`src/kandown/task_repo.py`, class `YamlTaskRepository`).

Tasks are Python dicts (string-keyed, insertion ordered); we model them as
association lists with Python-dict semantics: setting an existing key
replaces its value in place, setting a fresh key appends at the end,
deleting removes the entry.  Values are modelled by the inductive `Value`:
strings, integers, booleans and lists of strings — everything the
repository ever stores in a task field or a settings entry (tags and
column lists are lists of strings).

Timestamps: the source calls `datetime.datetime.now().isoformat()` once per
operation and uses the resulting string; we pass that string (`now`) as an
explicit argument to each operation.

Persistence: `_save` rewrites the whole YAML document
`{settings: ..., tasks: ...}`; we model the file as an optional YAML tree
(`Option Yaml`) written by `persist` and parsed back by `loadDoc`, and
count the number of writes so that "the operation persisted / did not
persist" is observable.  The YAML library's value-level round-trip
fidelity (dumping a document and safe-loading it back yields equal Python
values) is assumed; the document-structure part of the round trip is
proved, not assumed.
-/

/-- A Python value as stored by the repository in a task field or setting. -/
inductive Value where
  | str : String → Value
  | int : Int → Value
  | bool : Bool → Value
  | strList : List String → Value
deriving DecidableEq, Repr

/-- A Python dict with string keys: association list in insertion order. -/
abbrev Dict := List (String × Value)

/-- `d.get(k)` / `d[k]`: value of the first entry with key `k`. -/
def dget (d : Dict) (k : String) : Option Value :=
  match d with
  | [] => none
  | (k', v) :: rest => if k' = k then some v else dget rest k

/-- `k in d`. -/
def dmem (d : Dict) (k : String) : Bool :=
  (dget d k).isSome

/-- `d[k] = v`: replace in place if the key exists, else append at the end
(Python dicts keep insertion order). -/
def dset (d : Dict) (k : String) (v : Value) : Dict :=
  match d with
  | [] => [(k, v)]
  | (k', v') :: rest => if k' = k then (k', v) :: rest else (k', v') :: dset rest k v

/-- `del d[k]` / `d.pop(k, None)`: remove the entry with key `k`. -/
def ddel (d : Dict) (k : String) : Dict :=
  d.filter (fun kv => kv.1 ≠ k)

/-- A YAML document tree, as produced by `yaml.safe_dump`/`safe_load`. -/
inductive Yaml where
  | val : Value → Yaml
  | dict : List (String × Yaml) → Yaml
  | list : List Yaml → Yaml

/-- Lookup in a YAML mapping (`data.get(key)`). -/
def ylookup (es : List (String × Yaml)) (k : String) : Option Yaml :=
  match es with
  | [] => none
  | (k', y) :: rest => if k' = k then some y else ylookup rest k

/-- Encode a flat dict (a task, or the settings) as a YAML mapping. -/
def yamlOfDict (d : Dict) : Yaml :=
  .dict (d.map (fun kv => (kv.1, .val kv.2)))

/-- The document `_save` dumps: `{"settings": self.settings, "tasks": self.tasks}`. -/
def encodeDoc (settings : Dict) (tasks : List Dict) : Yaml :=
  .dict [("settings", yamlOfDict settings), ("tasks", .list (tasks.map yamlOfDict))]

/-- Read a YAML mapping back as a flat dict.  Entries whose value is not a
scalar/flat value cannot occur in documents produced by `_save` and are
dropped. -/
def dictOfYaml : Yaml → Dict
  | .dict es => es.filterMap (fun kv =>
      match kv.2 with
      | .val v => some (kv.1, v)
      | _ => none)
  | _ => []

/-- `_load`: absent file or a document that is not a mapping yields empty
settings and tasks; otherwise `data.get("settings", {})` and
`data.get("tasks", [])`.  Returns `(settings, tasks)`. -/
def loadDoc : Option Yaml → Dict × List Dict
  | some (.dict es) =>
      (match ylookup es "settings" with
       | some y => dictOfYaml y
       | none => [],
       match ylookup es "tasks" with
       | some (.list ys) => ys.map dictOfYaml
       | _ => [])
  | _ => ([], [])

/-- In-memory state of a `YamlTaskRepository` plus the backing file.
`writes` counts the `_save` calls (full-document rewrites). -/
structure RepoState where
  tasks : List Dict
  settings : Dict
  counter : Nat
  file : Option Yaml
  writes : Nat

/-- `_save`: rewrite the whole document to the file. -/
def persist (s : RepoState) : RepoState :=
  { s with file := some (encodeDoc s.settings s.tasks), writes := s.writes + 1 }

/-- Decimal digits of `n`, most significant first (fuel-based so that it
reduces in the kernel; `fuel > n` always suffices since `n / 10 < n`). -/
def natDigitsAux : Nat → Nat → List Char
  | 0, _ => []
  | fuel + 1, n =>
    if n < 10 then [Nat.digitChar n]
    else natDigitsAux fuel (n / 10) ++ [Nat.digitChar (n % 10)]

/-- Decimal rendering of a natural number, as a list of digit characters. -/
def natDigits (n : Nat) : List Char :=
  natDigitsAux (n + 1) n

/-- Zero-pad a digit list on the left to width 3 (Python's `{:03d}`). -/
def padTo3 (ds : List Char) : List Char :=
  List.replicate (3 - ds.length) '0' ++ ds

/-- `f"K-{n:03d}"`: the id the repository assigns from counter value `n`. -/
def fmtId (n : Nat) : String :=
  String.mk ('K' :: '-' :: padTo3 (natDigits n))

/-- Numeric value of a digit string (left fold, as positional decimal). -/
def parseDigits (ds : List Char) : Nat :=
  ds.foldl (fun acc c => acc * 10 + (c.toNat - 48)) 0

/-- Numeric suffix of an id: `int(tid[2:])` applied after
`tid.startswith("K-")`, for the plain digit suffixes the repository itself
generates; a suffix that is not a nonempty digit string raises `ValueError`
in the source and yields `none` here. -/
def idNum (tid : String) : Option Nat :=
  match tid.data with
  | 'K' :: '-' :: rest =>
    if rest ≠ [] ∧ rest.all Char.isDigit then some (parseDigits rest) else none
  | _ => none

/-- The numeric suffix a task contributes to `_update_counter`
(`task.get("id", "")`, skipping non-`K-` and non-numeric ids). -/
def taskIdNum (t : Dict) : Option Nat :=
  match dget t "id" with
  | some (.str tid) => idNum tid
  | _ => none

/-- One iteration of `_update_counter`'s loop: keep the running maximum,
taking `num` when `num > max_id`. -/
def idStep (m : Nat) (t : Dict) : Nat :=
  match taskIdNum t with
  | some n => if n > m then n else m
  | none => m

/-- `_update_counter`'s loop: the largest numeric `K-` suffix among the
tasks (0 when there is none). -/
def maxIdNum (tasks : List Dict) : Nat :=
  tasks.foldl idStep 0

/-- `_update_counter`: `max_id + 1 if max_id > 0 else 1`. -/
def updateCounter (tasks : List Dict) : Nat :=
  let maxId := maxIdNum tasks
  if maxId > 0 then maxId + 1 else 1

/-- The constructor `YamlTaskRepository(yaml_path)`: `_load()` then
`_update_counter()`. -/
def loadRepo (file : Option Yaml) : RepoState :=
  { tasks := (loadDoc file).2, settings := (loadDoc file).1,
    counter := updateCounter (loadDoc file).2, file := file, writes := 0 }

/-- `save`'s timestamp block: a record without an id gets
`created = updated = now`; a record with an id keeps `created` when it has
one (re-save) and always gets `updated = now`. -/
def stampTimes (now : String) (task : Dict) : Dict :=
  if ¬ dmem task "id" then
    dset (dset task "created" (.str now)) "updated" (.str now)
  else
    dset (if ¬ dmem task "created" then dset task "created" (.str now) else task)
      "updated" (.str now)

/-- First half of `save`'s closed-field block: `if "closed" in task and
task.get("status") != "done": del task["closed"]`. -/
def dropClosed (task : Dict) : Dict :=
  if dmem task "closed" ∧ dget task "status" ≠ some (.str "done") then
    ddel task "closed"
  else task

/-- Second half of `save`'s closed-field block: `if task.get("status") ==
"done" and "closed" not in task: task["closed"] = now`. -/
def addClosed (now : String) (task : Dict) : Dict :=
  if dget task "status" = some (.str "done") ∧ ¬ dmem task "closed" then
    dset task "closed" (.str now)
  else task

/-- `save`'s closed-field block: drop `closed` when status is not
`"done"`, then add `closed = now` when status is `"done"` and `closed` is
still absent. -/
def fixClosed (now : String) (task : Dict) : Dict :=
  addClosed now (dropClosed task)

/-- `save(task)`: stamp `created`/`updated`, enforce the `closed` field,
assign an id from the counter when absent, append, persist.  Returns the
new state and the stored task. -/
def save (s : RepoState) (now : String) (task : Dict) : RepoState × Dict :=
  let task := fixClosed now (stampTimes now task)
  let (task, counter) :=
    if ¬ dmem task "id" then
      (dset task "id" (.str (fmtId s.counter)), s.counter + 1)
    else (task, s.counter)
  let s' := persist { s with tasks := s.tasks ++ [task], counter := counter }
  (s', task)

/-- `task["id"] == id`: the match test of every lookup loop. -/
def hasId (id : String) (t : Dict) : Bool :=
  dget t "id" = some (.str id)

/-- `get(id)`: first task whose `"id"` equals `id`. -/
def getTask (s : RepoState) (id : String) : Option Dict :=
  s.tasks.find? (hasId id)

/-- `all()`: snapshot of the task list. -/
def allTasks (s : RepoState) : List Dict :=
  s.tasks

/-- Replace the first task whose `"id"` is `id` by its image under `f`;
returns the new list and the modified task, or `none` when no task
matches (the loop in each `update_*` method). -/
def updateFirst (tasks : List Dict) (id : String) (f : Dict → Dict) :
    Option (List Dict × Dict) :=
  match tasks with
  | [] => none
  | t :: ts =>
    if hasId id t then
      let t' := f t
      some (t' :: ts, t')
    else
      match updateFirst ts id f with
      | some (ts', t') => some (t :: ts', t')
      | none => none

/-- The body of `update_status`'s match arm: set `status` and `updated`,
then apply the closed-field transition (set on entering `done`, pop on
leaving `done`).  `status = none` leaves the task untouched. -/
def statusXform (now : String) (status : Option String) (task : Dict) : Dict :=
  match status with
  | none => task
  | some st =>
    let prev := dget task "status"
    let task := dset task "status" (.str st)
    let task := dset task "updated" (.str now)
    if st = "done" ∧ prev ≠ some (.str "done") then
      dset task "closed" (.str now)
    else if prev = some (.str "done") ∧ st ≠ "done" then
      ddel task "closed"
    else task

/-- `update_status(id, status)`. -/
def update_status (s : RepoState) (now : String) (id : String)
    (status : Option String) : RepoState × Option Dict :=
  match updateFirst s.tasks id (statusXform now status) with
  | some (ts, t) => (persist { s with tasks := ts }, some t)
  | none => (s, none)

/-- `update_text(id, text)`'s per-task mutation. -/
def textXform (now : String) (text : Option String) (task : Dict) : Dict :=
  match text with
  | none => task
  | some tx => dset (dset task "text" (.str tx)) "updated" (.str now)

/-- `update_text(id, text)`. -/
def update_text (s : RepoState) (now : String) (id : String)
    (text : Option String) : RepoState × Option Dict :=
  match updateFirst s.tasks id (textXform now text) with
  | some (ts, t) => (persist { s with tasks := ts }, some t)
  | none => (s, none)

/-- `update_tags(id, tags)`'s per-task mutation. -/
def tagsXform (now : String) (tags : Option (List String)) (task : Dict) : Dict :=
  match tags with
  | none => task
  | some tg => dset (dset task "tags" (.strList tg)) "updated" (.str now)

/-- `update_tags(id, tags)`. -/
def update_tags (s : RepoState) (now : String) (id : String)
    (tags : Option (List String)) : RepoState × Option Dict :=
  match updateFirst s.tasks id (tagsXform now tags) with
  | some (ts, t) => (persist { s with tasks := ts }, some t)
  | none => (s, none)

/-- `update_order(id, order)`: `order` is not optional; the field and
`updated` are always set on the found task. -/
def update_order (s : RepoState) (now : String) (id : String)
    (order : Int) : RepoState × Option Dict :=
  match updateFirst s.tasks id
      (fun task => dset (dset task "order" (.int order)) "updated" (.str now)) with
  | some (ts, t) => (persist { s with tasks := ts }, some t)
  | none => (s, none)

/-- Drop the first task whose `"id"` is `id` (the loop in `delete`, which
uses `task.get("id") == id`); `none` when no task matches. -/
def removeFirst (tasks : List Dict) (id : String) : Option (List Dict) :=
  match tasks with
  | [] => none
  | t :: ts =>
    if hasId id t then some ts
    else
      match removeFirst ts id with
      | some ts' => some (t :: ts')
      | none => none

/-- `delete(id)`. -/
def deleteTask (s : RepoState) (id : String) : RepoState × Bool :=
  match removeFirst s.tasks id with
  | some ts => (persist { s with tasks := ts }, true)
  | none => (s, false)

/-- Lookup in the `updates` mapping of `batch_update`
(`updates.get(task["id"])`). -/
def ulookup (updates : List (String × Dict)) (k : String) : Option Dict :=
  match updates with
  | [] => none
  | (k', d) :: rest => if k' = k then some d else ulookup rest k

/-- Does `batch_update` touch this task?  `attrs = updates.get(task["id"])`
followed by the truthiness test `if attrs:` — an id mapped to an *empty*
attribute dict is skipped exactly like an absent id. -/
def batchHit (updates : List (String × Dict)) (t : Dict) : Bool :=
  match dget t "id" with
  | some (.str tid) =>
    match ulookup updates tid with
    | some attrs => !attrs.isEmpty
    | none => false
  | _ => false

/-- `batch_update`'s per-task mutation when hit: `task[k] = v` for each
attribute in insertion order, then stamp `updated`. -/
def batchApply (now : String) (attrs : Dict) (task : Dict) : Dict :=
  dset (attrs.foldl (fun t kv => dset t kv.1 kv.2) task) "updated" (.str now)

/-- The attribute dict `batch_update` applies to a task
(empty when the task is not hit). -/
def attrsFor (updates : List (String × Dict)) (t : Dict) : Dict :=
  match dget t "id" with
  | some (.str tid) => (ulookup updates tid).getD []
  | _ => []

/-- The loop of `batch_update`: walk the task list in order, mutate the
hit tasks, and collect them.  Returns (new task list, updated tasks). -/
def batchGo (now : String) (updates : List (String × Dict)) :
    List Dict → List Dict × List Dict
  | [] => ([], [])
  | t :: ts =>
    let (ts', us) := batchGo now updates ts
    if batchHit updates t then
      let t' := batchApply now (attrsFor updates t) t
      (t' :: ts', t' :: us)
    else
      (t :: ts', us)

/-- `batch_update(updates)`: mutate every hit task, persist once
(unconditionally), return the updated tasks in store order. -/
def batch_update (s : RepoState) (now : String)
    (updates : List (String × Dict)) : RepoState × List Dict :=
  let (ts, us) := batchGo now updates s.tasks
  (persist { s with tasks := ts }, us)

/-- `update_settings(updates)`: `self.settings.update(updates)` (shallow
merge, insertion order), persist, return the full settings. -/
def update_settings (s : RepoState) (updates : Dict) : RepoState × Dict :=
  let settings := updates.foldl (fun acc kv => dset acc kv.1 kv.2) s.settings
  let s' := persist { s with settings := settings }
  (s', settings)

/-- The closed-field invariant of the data model: `closed` is present iff
`status == "done"`. -/
def closedInv (t : Dict) : Prop :=
  dmem t "closed" = true ↔ dget t "status" = some (.str "done")

/-- All tasks of the store satisfy the closed-field invariant. -/
def tasksInv (s : RepoState) : Prop :=
  ∀ t ∈ s.tasks, closedInv t

instance (t : Dict) : Decidable (closedInv t) := by
  unfold closedInv; infer_instance

instance (s : RepoState) : Decidable (tasksInv s) := by
  unfold tasksInv; infer_instance

/-- One repository mutation, excluding `batch_update` (which applies raw
attribute dicts and maintains no field invariant). -/
inductive Step : RepoState → RepoState → Prop where
  | save : ∀ s now task, Step s (save s now task).1
  | status : ∀ s now id st, Step s (update_status s now id st).1
  | text : ∀ s now id tx, Step s (update_text s now id tx).1
  | tags : ∀ s now id tg, Step s (update_tags s now id tg).1
  | order : ∀ s now id o, Step s (update_order s now id o).1
  | delete : ∀ s id, Step s (deleteTask s id).1

/-- Create each of the given records in sequence (left to right). -/
def saveAll (s : RepoState) (now : String) (ts : List Dict) : RepoState :=
  ts.foldl (fun s t => (save s now t).1) s

/-- One of the four single-field update operations, with its (non-None)
new value. -/
inductive FieldOp where
  | status : String → FieldOp
  | text : String → FieldOp
  | tags : List String → FieldOp
  | order : Int → FieldOp

/-- Run a single-field update operation on the repository. -/
def runOp (op : FieldOp) (s : RepoState) (now : String) (id : String) :
    RepoState × Option Dict :=
  match op with
  | .status st => update_status s now id (some st)
  | .text tx => update_text s now id (some tx)
  | .tags tg => update_tags s now id (some tg)
  | .order o => update_order s now id o

/-- The task fields a single-field update may touch: the named field,
`updated`, and (for status updates only) `closed`. -/
def opKeys : FieldOp → List String
  | .status _ => ["status", "updated", "closed"]
  | .text _ => ["text", "updated"]
  | .tags _ => ["tags", "updated"]
  | .order _ => ["order", "updated"]

/-- The per-task mutation a single-field update applies to the found
task (the body of the corresponding `update_*` loop). -/
def opXform (op : FieldOp) (now : String) (t : Dict) : Dict :=
  match op with
  | .status st => statusXform now (some st) t
  | .text tx => textXform now (some tx) t
  | .tags tg => tagsXform now (some tg) t
  | .order o => dset (dset t "order" (.int o)) "updated" (.str now)

example : dget (dset [("a", .int 1)] "b" (.int 2)) "b" = some (.int 2) := by decide
example : dmem (ddel [("a", .int 1)] "a") "a" = false := by decide
example : loadDoc (some (encodeDoc [("theme", .str "light")] [[("id", .str "K-001")]]))
    = ([("theme", .str "light")], [[("id", .str "K-001")]]) := by decide
example : fmtId 1 = "K-001" := by decide
example : fmtId 12 = "K-012" := by decide
example : fmtId 1234 = "K-1234" := by decide
example : idNum "K-007" = some 7 := by decide
example : idNum "K-" = none := by decide
example : idNum "X-1" = none := by decide

/-! ### Dictionary lemmas -/

theorem dget_dset_self (d : Dict) (k : String) (v : Value) :
    dget (dset d k v) k = some v := by
  induction d with
  | nil => simp [dset, dget]
  | cons kv rest ih =>
    obtain ⟨k0, v0⟩ := kv
    by_cases h : k0 = k
    · simp [dset, dget, h]
    · simp [dset, dget, h, ih]

theorem dget_dset_ne (d : Dict) (k k' : String) (v : Value) (h : k' ≠ k) :
    dget (dset d k v) k' = dget d k' := by
  induction d with
  | nil => simp [dset, dget, Ne.symm h]
  | cons kv rest ih =>
    obtain ⟨k0, v0⟩ := kv
    by_cases h1 : k0 = k
    · subst h1
      simp [dset, dget, Ne.symm h]
    · by_cases h2 : k0 = k'
      · simp [dset, dget, h1, h2, h]
      · simp [dset, dget, h1, h2, ih]

theorem dget_ddel_self (d : Dict) (k : String) :
    dget (ddel d k) k = none := by
  induction d with
  | nil => simp [ddel, dget]
  | cons kv rest ih =>
    obtain ⟨k0, v0⟩ := kv
    by_cases h : k0 = k
    · simpa [ddel, List.filter_cons, h] using ih
    · simpa [ddel, List.filter_cons, dget, h] using ih

theorem dget_ddel_ne (d : Dict) (k k' : String) (h : k' ≠ k) :
    dget (ddel d k) k' = dget d k' := by
  induction d with
  | nil => simp [ddel, dget]
  | cons kv rest ih =>
    obtain ⟨k0, v0⟩ := kv
    by_cases h1 : k0 = k
    · subst h1
      simpa [ddel, List.filter_cons, dget, Ne.symm h] using ih
    · by_cases h2 : k0 = k'
      · simp [ddel, List.filter_cons, dget, h1, h2, h]
      · simpa [ddel, List.filter_cons, dget, h1, h2] using ih

theorem dmem_dset_self (d : Dict) (k : String) (v : Value) :
    dmem (dset d k v) k = true := by
  simp [dmem, dget_dset_self]

theorem dmem_dset_ne (d : Dict) (k k' : String) (v : Value) (h : k' ≠ k) :
    dmem (dset d k v) k' = dmem d k' := by
  simp [dmem, dget_dset_ne d k k' v h]

theorem dmem_ddel_self (d : Dict) (k : String) :
    dmem (ddel d k) k = false := by
  simp [dmem, dget_ddel_self]

theorem dmem_ddel_ne (d : Dict) (k k' : String) (h : k' ≠ k) :
    dmem (ddel d k) k' = dmem d k' := by
  simp [dmem, dget_ddel_ne d k k' h]

theorem dget_eq_some_of_dmem (d : Dict) (k : String) (h : dmem d k = true) :
    ∃ v, dget d k = some v := by
  unfold dmem at h
  exact Option.isSome_iff_exists.mp h

theorem dget_eq_none_of_not_dmem (d : Dict) (k : String) (h : dmem d k = false) :
    dget d k = none := by
  unfold dmem at h
  exact Option.not_isSome_iff_eq_none.mp (by simp [h])

/-! ### Decimal id lemmas -/

theorem natDigitsAux_irrel (n : Nat) : ∀ f1 f2, n < f1 → n < f2 →
    natDigitsAux f1 n = natDigitsAux f2 n := by
  induction n using Nat.strong_induction_on with
  | _ n ih =>
    intro f1 f2 h1 h2
    match f1, f2, h1, h2 with
    | f1 + 1, f2 + 1, h1, h2 =>
      simp only [natDigitsAux]
      by_cases h10 : n < 10
      · simp [h10]
      · have hlt : n / 10 < n := Nat.div_lt_self (by omega) (by omega)
        simp only [h10, if_false]
        rw [ih (n / 10) hlt f1 f2 (by omega) (by omega)]

theorem natDigits_def (n : Nat) :
    natDigits n = if n < 10 then [Nat.digitChar n]
      else natDigits (n / 10) ++ [Nat.digitChar (n % 10)] := by
  by_cases h10 : n < 10
  · simp [natDigits, natDigitsAux, h10]
  · have hlt : n / 10 < n := Nat.div_lt_self (by omega) (by omega)
    rw [if_neg h10]
    have step : natDigitsAux (n + 1) n
        = natDigitsAux n (n / 10) ++ [Nat.digitChar (n % 10)] := by
      simp only [natDigitsAux, h10, if_false]
    show natDigitsAux (n + 1) n
        = natDigitsAux (n / 10 + 1) (n / 10) ++ [Nat.digitChar (n % 10)]
    rw [step, natDigitsAux_irrel (n / 10) n (n / 10 + 1) (by omega) (by omega)]

theorem parseDigits_append_singleton (ds : List Char) (c : Char) :
    parseDigits (ds ++ [c]) = parseDigits ds * 10 + (c.toNat - 48) := by
  unfold parseDigits
  rw [List.foldl_append]
  rfl

theorem digitChar_toNat (d : Nat) (h : d < 10) :
    (Nat.digitChar d).toNat - 48 = d := by
  interval_cases d <;> decide

theorem digitChar_isDigit (d : Nat) (h : d < 10) :
    (Nat.digitChar d).isDigit = true := by
  interval_cases d <;> decide

theorem parseDigits_natDigits (n : Nat) : parseDigits (natDigits n) = n := by
  induction n using Nat.strong_induction_on with
  | _ n ih =>
    rw [natDigits_def]
    by_cases h10 : n < 10
    · simp [h10, parseDigits, List.foldl, digitChar_toNat n h10]
    · have hlt : n / 10 < n := Nat.div_lt_self (by omega) (by omega)
      rw [if_neg h10, parseDigits_append_singleton, ih _ hlt,
        digitChar_toNat _ (Nat.mod_lt _ (by omega))]
      omega

theorem parseDigits_cons_zero (ds : List Char) :
    parseDigits ('0' :: ds) = parseDigits ds := rfl

theorem parseDigits_replicate_zero (k : Nat) (ds : List Char) :
    parseDigits (List.replicate k '0' ++ ds) = parseDigits ds := by
  induction k with
  | zero => simp
  | succ k ih => simpa [List.replicate_succ, parseDigits_cons_zero] using ih

theorem parseDigits_padTo3 (n : Nat) :
    parseDigits (padTo3 (natDigits n)) = n := by
  unfold padTo3
  rw [parseDigits_replicate_zero, parseDigits_natDigits]

theorem fmtId_inj : Function.Injective fmtId := by
  intro m n h
  have hd : 'K' :: '-' :: padTo3 (natDigits m) = 'K' :: '-' :: padTo3 (natDigits n) := by
    simpa [fmtId] using congrArg String.data h
  have hp : padTo3 (natDigits m) = padTo3 (natDigits n) := by
    simpa using hd
  have h2 := congrArg parseDigits hp
  rwa [parseDigits_padTo3, parseDigits_padTo3] at h2

theorem natDigits_ne_nil (n : Nat) : natDigits n ≠ [] := by
  rw [natDigits_def]
  by_cases h10 : n < 10 <;> simp [h10]

theorem natDigits_all_digits (n : Nat) :
    (natDigits n).all Char.isDigit = true := by
  induction n using Nat.strong_induction_on with
  | _ n ih =>
    rw [natDigits_def]
    by_cases h10 : n < 10
    · simp [h10, digitChar_isDigit n h10]
    · have hlt : n / 10 < n := Nat.div_lt_self (by omega) (by omega)
      simp [h10, ih _ hlt, digitChar_isDigit _ (Nat.mod_lt _ (by omega))]

theorem padTo3_all_digits (n : Nat) :
    (padTo3 (natDigits n)).all Char.isDigit = true := by
  unfold padTo3
  rw [List.all_append]
  refine (Bool.and_eq_true _ _).mpr ⟨?_, natDigits_all_digits n⟩
  simp [List.all_eq_true, List.mem_replicate]

theorem idNum_fmtId (n : Nat) : idNum (fmtId n) = some n := by
  show (if padTo3 (natDigits n) ≠ [] ∧ (padTo3 (natDigits n)).all Char.isDigit
      then some (parseDigits (padTo3 (natDigits n))) else none) = some n
  rw [if_pos]
  · rw [parseDigits_padTo3]
  · refine ⟨?_, padTo3_all_digits n⟩
    unfold padTo3
    simp [natDigits_ne_nil n]

/-! ### Lookup-loop lemmas -/

theorem updateFirst_none (ts : List Dict) (id : String) (f : Dict → Dict)
    (h : ts.find? (hasId id) = none) : updateFirst ts id f = none := by
  induction ts with
  | nil => rfl
  | cons a ts ih =>
    by_cases h1 : hasId id a
    · simp [List.find?_cons, h1] at h
    · have h2 : ts.find? (hasId id) = none := by
        simpa [List.find?_cons, h1] using h
      simp [updateFirst, h1, ih h2]

theorem updateFirst_found (ts : List Dict) (id : String) (f : Dict → Dict)
    (t : Dict) (h : ts.find? (hasId id) = some t) :
    ∃ pre post, ts = pre ++ t :: post ∧ (∀ u ∈ pre, hasId id u = false) ∧
      hasId id t = true ∧
      updateFirst ts id f = some (pre ++ f t :: post, f t) := by
  induction ts with
  | nil => simp at h
  | cons a ts ih =>
    by_cases h1 : hasId id a
    · have ha : a = t := by simpa [List.find?_cons, h1] using h
      subst ha
      exact ⟨[], ts, rfl, by simp, h1, by simp [updateFirst, h1]⟩
    · have h2 : ts.find? (hasId id) = some t := by
        simpa [List.find?_cons, h1] using h
      obtain ⟨pre, post, hts, hpre, hT, hup⟩ := ih h2
      refine ⟨a :: pre, post, by simp [hts], ?_, hT, ?_⟩
      · intro u hu
        rcases List.mem_cons.mp hu with rfl | hmem
        · simpa using h1
        · exact hpre u hmem
      · simp [updateFirst, h1, hup]

theorem removeFirst_none (ts : List Dict) (id : String)
    (h : ts.find? (hasId id) = none) : removeFirst ts id = none := by
  induction ts with
  | nil => rfl
  | cons a ts ih =>
    by_cases h1 : hasId id a
    · simp [List.find?_cons, h1] at h
    · have h2 : ts.find? (hasId id) = none := by
        simpa [List.find?_cons, h1] using h
      simp [removeFirst, h1, ih h2]

theorem removeFirst_found (ts : List Dict) (id : String) (t : Dict)
    (h : ts.find? (hasId id) = some t) :
    ∃ pre post, ts = pre ++ t :: post ∧ (∀ u ∈ pre, hasId id u = false) ∧
      removeFirst ts id = some (pre ++ post) := by
  induction ts with
  | nil => simp at h
  | cons a ts ih =>
    by_cases h1 : hasId id a
    · have ha : a = t := by simpa [List.find?_cons, h1] using h
      subst ha
      exact ⟨[], ts, rfl, by simp, by simp [removeFirst, h1]⟩
    · have h2 : ts.find? (hasId id) = some t := by
        simpa [List.find?_cons, h1] using h
      obtain ⟨pre, post, hts, hpre, hrm⟩ := ih h2
      refine ⟨a :: pre, post, by simp [hts], ?_, by simp [removeFirst, h1, hrm]⟩
      intro u hu
      rcases List.mem_cons.mp hu with rfl | hmem
      · simpa using h1
      · exact hpre u hmem

theorem batchGo_spec (now : String) (updates : List (String × Dict))
    (ts : List Dict) :
    (batchGo now updates ts).1 = ts.map (fun t =>
        if batchHit updates t then batchApply now (attrsFor updates t) t else t) ∧
    (batchGo now updates ts).2 = (ts.filter (batchHit updates)).map (fun t =>
        batchApply now (attrsFor updates t) t) := by
  induction ts with
  | nil => exact ⟨rfl, rfl⟩
  | cons t ts ih =>
    by_cases h : batchHit updates t
    · simp [batchGo, List.filter_cons, h, ih.1, ih.2]
    · simp [batchGo, List.filter_cons, h, ih.1, ih.2]

/-! ### Counter lemmas -/

theorem idStep_ge (acc : Nat) (t : Dict) : acc ≤ idStep acc t := by
  unfold idStep
  cases taskIdNum t with
  | none => exact le_refl acc
  | some n =>
    dsimp only
    split <;> omega

theorem le_foldl_idStep (tasks : List Dict) (acc : Nat) :
    acc ≤ tasks.foldl idStep acc := by
  induction tasks generalizing acc with
  | nil => simp
  | cons t ts ih => exact le_trans (idStep_ge acc t) (ih (idStep acc t))

theorem foldl_idStep_ge_mem (tasks : List Dict) (t : Dict) (n : Nat)
    (ht : t ∈ tasks) (hn : taskIdNum t = some n) : ∀ acc,
    n ≤ tasks.foldl idStep acc := by
  induction tasks with
  | nil => cases ht
  | cons a ts ih =>
    intro acc
    rcases List.mem_cons.mp ht with rfl | hmem
    · refine le_trans ?_ (le_foldl_idStep ts (idStep acc t))
      unfold idStep
      rw [hn]
      dsimp only
      split <;> omega
    · exact ih hmem (idStep acc a)

theorem maxIdNum_ge (tasks : List Dict) (t : Dict) (n : Nat)
    (ht : t ∈ tasks) (hn : taskIdNum t = some n) : n ≤ maxIdNum tasks :=
  foldl_idStep_ge_mem tasks t n ht hn 0

/-! ### Save-stage lemmas -/

theorem dget_stampTimes_other (now : String) (task : Dict) (k : String)
    (h1 : k ≠ "created") (h2 : k ≠ "updated") :
    dget (stampTimes now task) k = dget task k := by
  unfold stampTimes
  by_cases hid : dmem task "id"
  · by_cases hc : dmem task "created" <;>
      simp [hid, hc, dget_dset_ne _ _ _ _ h1, dget_dset_ne _ _ _ _ h2]
  · simp [hid, dget_dset_ne _ _ _ _ h1, dget_dset_ne _ _ _ _ h2]

theorem dget_stampTimes_updated (now : String) (task : Dict) :
    dget (stampTimes now task) "updated" = some (.str now) := by
  unfold stampTimes
  by_cases hid : dmem task "id" <;> simp [hid, dget_dset_self]

theorem dget_stampTimes_created_of_no_id (now : String) (task : Dict)
    (h : dmem task "id" = false) :
    dget (stampTimes now task) "created" = some (.str now) := by
  unfold stampTimes
  simp [h, dget_dset_ne _ _ _ _ (by decide : ("created" : String) ≠ "updated"),
    dget_dset_self]

theorem dget_stampTimes_created_of_resave (now : String) (task : Dict)
    (hid : dmem task "id" = true) (hc : dmem task "created" = true) :
    dget (stampTimes now task) "created" = dget task "created" := by
  unfold stampTimes
  simp [hid, hc, dget_dset_ne _ _ _ _ (by decide : ("created" : String) ≠ "updated")]

theorem dmem_stampTimes_other (now : String) (task : Dict) (k : String)
    (h1 : k ≠ "created") (h2 : k ≠ "updated") :
    dmem (stampTimes now task) k = dmem task k := by
  simp [dmem, dget_stampTimes_other now task k h1 h2]

theorem dget_dropClosed_other (task : Dict) (k : String) (h : k ≠ "closed") :
    dget (dropClosed task) k = dget task k := by
  unfold dropClosed
  split
  · exact dget_ddel_ne _ _ _ h
  · rfl

theorem dget_addClosed_other (now : String) (task : Dict) (k : String)
    (h : k ≠ "closed") :
    dget (addClosed now task) k = dget task k := by
  unfold addClosed
  split
  · exact dget_dset_ne _ _ _ _ h
  · rfl

theorem dget_fixClosed_other (now : String) (task : Dict) (k : String)
    (h : k ≠ "closed") :
    dget (fixClosed now task) k = dget task k := by
  unfold fixClosed
  rw [dget_addClosed_other now _ k h, dget_dropClosed_other task k h]

theorem dmem_fixClosed_other (now : String) (task : Dict) (k : String)
    (h : k ≠ "closed") :
    dmem (fixClosed now task) k = dmem task k := by
  simp [dmem, dget_fixClosed_other now task k h]

theorem dropClosed_closed_imp (task : Dict)
    (hc : dmem (dropClosed task) "closed" = true) :
    dget (dropClosed task) "status" = some (.str "done") := by
  unfold dropClosed at hc ⊢
  by_cases h1 : dmem task "closed" ∧ dget task "status" ≠ some (.str "done")
  · rw [if_pos h1] at hc
    rw [dmem_ddel_self] at hc
    cases hc
  · rw [if_neg h1] at hc ⊢
    by_contra hS
    exact h1 ⟨hc, hS⟩

theorem closedInv_addClosed (now : String) (task : Dict)
    (h : dmem task "closed" = true → dget task "status" = some (.str "done")) :
    closedInv (addClosed now task) := by
  unfold closedInv addClosed
  by_cases hS : dget task "status" = some (.str "done")
  · by_cases hC : dmem task "closed"
    · rw [if_neg (by simp [hC])]
      exact ⟨fun _ => hS, fun _ => hC⟩
    · rw [if_pos ⟨hS, by simp [hC]⟩]
      constructor
      · intro _
        rw [dget_dset_ne _ _ _ _ (by decide : ("status" : String) ≠ "closed")]
        exact hS
      · intro _
        exact dmem_dset_self _ _ _
  · rw [if_neg (by simp [hS])]
    have hC : dmem task "closed" = false := by
      by_contra hc
      exact hS (h (by simpa using hc))
    simp [hC, hS]

theorem closedInv_fixClosed (now : String) (task : Dict) :
    closedInv (fixClosed now task) :=
  closedInv_addClosed now (dropClosed task) (dropClosed_closed_imp task)

theorem dmem_id_stampTimes (now : String) (task : Dict) :
    dmem (stampTimes now task) "id" = dmem task "id" :=
  dmem_stampTimes_other now task "id" (by decide) (by decide)

theorem dmem_id_fixClosed (now : String) (task : Dict) :
    dmem (fixClosed now task) "id" = dmem task "id" :=
  dmem_fixClosed_other now task "id" (by decide)

theorem save_of_no_id (s : RepoState) (now : String) (task : Dict)
    (h : dmem task "id" = false) :
    (save s now task).2
        = dset (fixClosed now (stampTimes now task)) "id" (.str (fmtId s.counter)) ∧
    (save s now task).1
        = persist { s with tasks := s.tasks ++ [(save s now task).2],
                           counter := s.counter + 1 } := by
  have hid : dmem (fixClosed now (stampTimes now task)) "id" = false := by
    rw [dmem_id_fixClosed, dmem_id_stampTimes, h]
  constructor <;> simp [save, hid]

theorem save_of_id (s : RepoState) (now : String) (task : Dict)
    (h : dmem task "id" = true) :
    (save s now task).2 = fixClosed now (stampTimes now task) ∧
    (save s now task).1
        = persist { s with tasks := s.tasks ++ [(save s now task).2],
                           counter := s.counter } := by
  have hid : dmem (fixClosed now (stampTimes now task)) "id" = true := by
    rw [dmem_id_fixClosed, dmem_id_stampTimes, h]
  constructor <;> simp [save, hid]

/-! ### Round-trip lemmas -/

theorem dictOfYaml_yamlOfDict (d : Dict) : dictOfYaml (yamlOfDict d) = d := by
  induction d with
  | nil => rfl
  | cons kv rest ih =>
    simpa [dictOfYaml, yamlOfDict] using ih

theorem loadDoc_encodeDoc (settings : Dict) (tasks : List Dict) :
    loadDoc (some (encodeDoc settings tasks)) = (settings, tasks) := by
  have h1 : (tasks.map yamlOfDict).map dictOfYaml = tasks := by
    rw [List.map_map]
    have h2 : dictOfYaml ∘ yamlOfDict = id := by
      funext d
      exact dictOfYaml_yamlOfDict d
    rw [h2, List.map_id]
  simp [loadDoc, encodeDoc, ylookup, dictOfYaml_yamlOfDict, h1]

/-! ### Settings-merge lemmas -/

theorem dget_eq_none_of_not_mem_keys (u : Dict) (k : String)
    (h : k ∉ u.map Prod.fst) : dget u k = none := by
  induction u with
  | nil => rfl
  | cons kv rest ih =>
    simp only [List.map_cons, List.mem_cons] at h
    push_neg at h
    simp only [dget]
    rw [if_neg (fun he => h.1 he.symm)]
    exact ih h.2

theorem dsets_spec (u : Dict) : ∀ (d : Dict), (u.map Prod.fst).Nodup →
    ∀ k, dget (u.foldl (fun acc kv => dset acc kv.1 kv.2) d) k
      = match dget u k with
        | some v => some v
        | none => dget d k := by
  induction u with
  | nil => intro d _ k; rfl
  | cons kv rest ih =>
    intro d hnd k
    rw [List.map_cons] at hnd
    have hZ := List.nodup_cons.mp hnd
    rw [List.foldl_cons, ih (dset d kv.1 kv.2) hZ.2 k]
    by_cases h : kv.1 = k
    · subst h
      rw [dget_eq_none_of_not_mem_keys rest kv.1 hZ.1]
      simp [dget, dget_dset_self]
    · have hne : k ≠ kv.1 := fun he => h he.symm
      cases hr : dget rest k with
      | none => simp [dget, h, hr, dget_dset_ne d kv.1 k kv.2 hne]
      | some v => simp [dget, h, hr]

/-! ### Claim C7 -/

/-- C7: persisting the document and then constructing a new repository
from the same file yields a store with an equal task list (same order)
and equal settings — save followed by load is the identity on tasks and
settings. -/
theorem C7_save_load_round_trip (s : RepoState) :
    (loadRepo (persist s).file).tasks = s.tasks ∧
    (loadRepo (persist s).file).settings = s.settings := by
  have h : (persist s).file = some (encodeDoc s.settings s.tasks) := rfl
  rw [h]
  simp [loadRepo, loadDoc_encodeDoc]

/-! ### Claim C5 -/

/-- C5: on an id not present in the store, `update_status`, `update_text`,
`update_tags` and `update_order` return `none`, `delete` returns `false`,
and the state — in-memory task list, write counter and persisted file —
is completely unchanged. -/
theorem C5_not_found_noop (s : RepoState) (id : String)
    (h : getTask s id = none) :
    (∀ now st, update_status s now id st = (s, none)) ∧
    (∀ now tx, update_text s now id tx = (s, none)) ∧
    (∀ now tg, update_tags s now id tg = (s, none)) ∧
    (∀ now o, update_order s now id o = (s, none)) ∧
    deleteTask s id = (s, false) := by
  have hf : s.tasks.find? (hasId id) = none := h
  refine ⟨?_, ?_, ?_, ?_, ?_⟩
  · intro now st
    simp [update_status, updateFirst_none s.tasks id _ hf]
  · intro now tx
    simp [update_text, updateFirst_none s.tasks id _ hf]
  · intro now tg
    simp [update_tags, updateFirst_none s.tasks id _ hf]
  · intro now o
    simp [update_order, updateFirst_none s.tasks id _ hf]
  · simp [deleteTask, removeFirst_none s.tasks id hf]

/-- Witness for C5: a concrete store containing only `K-001`; operations
on the absent id `K-999` return the not-found signal and leave the state
untouched. -/
theorem C5_not_found_noop_w :
    update_status (save (loadRepo none) "t0"
        [("text", .str "x"), ("status", .str "todo")]).1 "t1" "K-999" (some "done")
      = ((save (loadRepo none) "t0"
        [("text", .str "x"), ("status", .str "todo")]).1, none) ∧
    deleteTask (save (loadRepo none) "t0"
        [("text", .str "x"), ("status", .str "todo")]).1 "K-999"
      = ((save (loadRepo none) "t0"
        [("text", .str "x"), ("status", .str "todo")]).1, false) := by
  have h := C5_not_found_noop (save (loadRepo none) "t0"
      [("text", .str "x"), ("status", .str "todo")]).1 "K-999" (by decide)
  exact ⟨h.1 "t1" (some "done"), h.2.2.2.2⟩

/-! ### Claim C8 -/

/-- C8: `update_settings` shallow-merges the update into the existing
settings and returns the full result: every key of the update takes its
new value, every other existing key keeps its previous value, and the
merged mapping is what the store keeps (and persists). -/
theorem C8_settings_merge (s : RepoState) (updates : Dict)
    (hnd : (updates.map Prod.fst).Nodup) :
    (∀ k, dget (update_settings s updates).2 k
        = match dget updates k with
          | some v => some v
          | none => dget s.settings k) ∧
    (update_settings s updates).1.settings = (update_settings s updates).2 ∧
    (update_settings s updates).1.writes = s.writes + 1 := by
  refine ⟨?_, rfl, rfl⟩
  intro k
  exact dsets_spec updates s.settings hnd k

/-- Witness for C8: `{theme: light}` merged with `{auto_save: true}`
keeps `theme` and gains `auto_save`. -/
theorem C8_settings_merge_w :
    dget (update_settings
        { tasks := [], settings := [("theme", .str "light")], counter := 1,
          file := none, writes := 0 }
        [("auto_save", .bool true)]).2 "theme" = some (.str "light") ∧
    dget (update_settings
        { tasks := [], settings := [("theme", .str "light")], counter := 1,
          file := none, writes := 0 }
        [("auto_save", .bool true)]).2 "auto_save" = some (.bool true) := by
  have h := C8_settings_merge
      { tasks := [], settings := [("theme", .str "light")], counter := 1,
        file := none, writes := 0 }
      [("auto_save", .bool true)] (by decide)
  refine ⟨?_, ?_⟩
  · rw [h.1 "theme"]
    decide
  · rw [h.1 "auto_save"]
    decide

/-! ### Claim C4 -/

/-- C4 counterexample: the store's `save` does not fail on a record with
no `status`: the record is appended (task count goes from 0 to 1), no
error is raised (the operation is total), and no status is invented. -/
theorem C4_counterexample :
    (save (loadRepo none) "t0" [("text", .str "x")]).1.tasks.length = 1 ∧
    dmem (save (loadRepo none) "t0" [("text", .str "x")]).2 "status" = false := by
  decide

/-- C4 amended: the store's `save` performs no validation — a record with
no `status` field is appended to the store (no error), and the store
supplies no default: the stored task still has no `status` field.
Rejection of such records is the HTTP layer's responsibility. -/
theorem C4_no_default_status (s : RepoState) (now : String) (task : Dict)
    (h : dmem task "status" = false) :
    (save s now task).1.tasks = s.tasks ++ [(save s now task).2] ∧
    dmem (save s now task).2 "status" = false := by
  have hst : dmem (fixClosed now (stampTimes now task)) "status" = false := by
    rw [dmem_fixClosed_other now _ "status" (by decide),
      dmem_stampTimes_other now task "status" (by decide) (by decide), h]
  by_cases hid : dmem task "id"
  · obtain ⟨h2, h1⟩ := save_of_id s now task hid
    constructor
    · rw [h1]
      rfl
    · rw [h2]
      exact hst
  · obtain ⟨h2, h1⟩ := save_of_no_id s now task (by simpa using hid)
    constructor
    · rw [h1]
      rfl
    · rw [h2, dmem_dset_ne _ _ _ _ (by decide : ("status" : String) ≠ "id")]
      exact hst

/-- Witness for C4's amended statement at a concrete record. -/
theorem C4_no_default_status_w :
    (save (loadRepo none) "t0" [("text", .str "x")]).1.tasks
        = [] ++ [(save (loadRepo none) "t0" [("text", .str "x")]).2] ∧
    dmem (save (loadRepo none) "t0" [("text", .str "x")]).2 "status" = false :=
  C4_no_default_status (loadRepo none) "t0" [("text", .str "x")] (by decide)

/-! ### Claim C10 -/

/-- C10: calling `update_status`, `update_text` or `update_tags` with a
`None` value on a present id returns the stored task with every field
unchanged — no `updated` re-stamp, `status`/`closed` untouched — yet the
operation still rewrites the document (one more `_save`). -/
theorem C10_none_value_update (s : RepoState) (now id : String) (t : Dict)
    (h : getTask s id = some t) :
    update_status s now id none = (persist s, some t) ∧
    update_text s now id none = (persist s, some t) ∧
    update_tags s now id none = (persist s, some t) ∧
    (persist s).tasks = s.tasks ∧
    (persist s).writes = s.writes + 1 ∧
    (persist s).file = some (encodeDoc s.settings s.tasks) := by
  obtain ⟨pre, post, hts, hpre, hT, hupS⟩ :=
    updateFirst_found s.tasks id (statusXform now none) t h
  obtain ⟨pre2, post2, hts2, hpre2, hT2, hupT⟩ :=
    updateFirst_found s.tasks id (textXform now none) t h
  obtain ⟨pre3, post3, hts3, hpre3, hT3, hupG⟩ :=
    updateFirst_found s.tasks id (tagsXform now none) t h
  have hS : statusXform now none t = t := rfl
  have hTx : textXform now none t = t := rfl
  have hTg : tagsXform now none t = t := rfl
  rw [hS, ← hts] at hupS
  rw [hTx, ← hts2] at hupT
  rw [hTg, ← hts3] at hupG
  refine ⟨?_, ?_, ?_, rfl, rfl, rfl⟩
  · simp [update_status, hupS]
  · simp [update_text, hupT]
  · simp [update_tags, hupG]

/-- Witness for C10 on a concrete single-task store. -/
theorem C10_none_value_update_w :
    update_status (save (loadRepo none) "t0"
        [("text", .str "x"), ("status", .str "todo")]).1 "t1" "K-001" none
      = (persist (save (loadRepo none) "t0"
          [("text", .str "x"), ("status", .str "todo")]).1,
         some (save (loadRepo none) "t0"
          [("text", .str "x"), ("status", .str "todo")]).2) := by
  have h := C10_none_value_update (save (loadRepo none) "t0"
      [("text", .str "x"), ("status", .str "todo")]).1 "t1" "K-001"
      (save (loadRepo none) "t0" [("text", .str "x"), ("status", .str "todo")]).2
      (by decide)
  exact h.1

/-! ### Claim C6 -/

/-- C6 counterexample: with the mapping `{K-001: {}}` against a store
containing `K-001`, the id *is* a key of the mapping, yet `batch_update`
neither stamps `updated` (it stays at the creation instant `"t0"`, not
`"t1"`) nor returns the task: the truthiness test `if attrs:` skips an
id mapped to an empty attribute dict. -/
theorem C6_counterexample :
    (ulookup [("K-001", ([] : Dict))] "K-001").isSome = true ∧
    (batch_update (save (loadRepo none) "t0"
        [("text", .str "x"), ("status", .str "todo")]).1 "t1"
        [("K-001", [])]).2 = [] ∧
    (batch_update (save (loadRepo none) "t0"
        [("text", .str "x"), ("status", .str "todo")]).1 "t1"
        [("K-001", [])]).1.tasks.map (fun t => dget t "updated")
      = [some (.str "t0")] ∧
    ("t0" : String) ≠ "t1" := by
  decide

/-- C6 amended: `batch_update` shallow-applies the attributes and stamps
`updated` exactly on the stored tasks whose id is mapped to a *non-empty*
attribute dict (`batchHit`); ids absent from the store and ids mapped to
an empty dict are silently skipped; every non-hit task is left unchanged;
the returned list is exactly the mutated tasks in store order; the
document is persisted once. -/
theorem C6_batch_spec (s : RepoState) (now : String)
    (updates : List (String × Dict)) :
    (batch_update s now updates).1.tasks = s.tasks.map (fun t =>
        if batchHit updates t then batchApply now (attrsFor updates t) t else t) ∧
    (batch_update s now updates).2 = (s.tasks.filter (batchHit updates)).map
        (fun t => batchApply now (attrsFor updates t) t) ∧
    (∀ t, batchHit updates t = true →
        dget (batchApply now (attrsFor updates t) t) "updated"
          = some (.str now)) ∧
    (∀ t, batchHit updates t = false →
        (if batchHit updates t then batchApply now (attrsFor updates t) t else t)
          = t) ∧
    (batch_update s now updates).1.writes = s.writes + 1 := by
  obtain ⟨h1, h2⟩ := batchGo_spec now updates s.tasks
  refine ⟨?_, ?_, ?_, ?_, rfl⟩
  · show (batchGo now updates s.tasks).1 = _
    exact h1
  · show (batchGo now updates s.tasks).2 = _
    exact h2
  · intro t _
    exact dget_dset_self _ _ _
  · intro t hmiss
    rw [if_neg (by simp [hmiss])]

/-- Witness for C6's amended statement: mapping `{K-001: {text: y},
K-002: {status: done}}` against a store holding `K-001` and `K-003`:
only `K-001` is mutated and returned, `K-002` is silently ignored,
`K-003` is untouched. -/
theorem C6_batch_spec_w :
    (batch_update (saveAll (loadRepo none) "t0"
        [[("text", .str "a"), ("status", .str "todo")],
         [("id", .str "K-003"), ("text", .str "b"), ("status", .str "todo")]]) "t1"
        [("K-001", [("text", Value.str "y")]),
         ("K-002", [("status", Value.str "done")])]).2.map
        (fun t => dget t "id")
      = [some (.str "K-001")] := by
  have h := C6_batch_spec (saveAll (loadRepo none) "t0"
      [[("text", .str "a"), ("status", .str "todo")],
       [("id", .str "K-003"), ("text", .str "b"), ("status", .str "todo")]]) "t1"
      [("K-001", [("text", Value.str "y")]),
       ("K-002", [("status", Value.str "done")])]
  rw [h.2.1]
  decide

/-! ### Status-transition lemmas -/

theorem statusXform_done_of_not_done (now : String) (t : Dict)
    (h : dget t "status" ≠ some (.str "done")) :
    dget (statusXform now (some "done") t) "closed" = some (.str now) := by
  simp only [statusXform]
  rw [if_pos ⟨by trivial, h⟩]
  exact dget_dset_self _ _ _

theorem statusXform_done_of_done (now : String) (t : Dict)
    (h : dget t "status" = some (.str "done")) :
    dget (statusXform now (some "done") t) "closed" = dget t "closed" := by
  simp only [statusXform]
  rw [if_neg (by simp [h]), if_neg (by simp),
    dget_dset_ne _ _ _ _ (by decide : ("closed" : String) ≠ "updated"),
    dget_dset_ne _ _ _ _ (by decide : ("closed" : String) ≠ "status")]

/-! ### Claim C2 -/

/-- C2 counterexample: a task that is already `done` (with
`closed = "t0"`) keeps its old `closed` value when `update_status` is
called with `"done"` again at instant `"t1"`: the branch that refreshes
`closed` requires `previous_status != "done"`. -/
theorem C2_counterexample :
    ((update_status (save (loadRepo none) "t0"
        [("text", .str "x"), ("status", .str "done")]).1 "t1" "K-001"
        (some "done")).2.map (fun t => dget t "closed"))
      = some (some (.str "t0")) ∧
    ("t0" : String) ≠ "t1" := by
  decide

/-- C2 amended: `update_status(id, "done")` sets `closed` to the current
instant exactly when the task's previous status was not `"done"`
(including the reopened done→other→done case); when the task is already
`"done"`, `closed` keeps its original value unchanged. -/
theorem C2_closed_refresh (s : RepoState) (now id : String) (t : Dict)
    (h : getTask s id = some t) :
    (update_status s now id (some "done")).2
        = some (statusXform now (some "done") t) ∧
    (dget t "status" ≠ some (.str "done") →
        dget (statusXform now (some "done") t) "closed" = some (.str now)) ∧
    (dget t "status" = some (.str "done") →
        dget (statusXform now (some "done") t) "closed" = dget t "closed") := by
  obtain ⟨pre, post, hts, hpre, hT, hup⟩ :=
    updateFirst_found s.tasks id (statusXform now (some "done")) t h
  exact ⟨by simp [update_status, hup],
    statusXform_done_of_not_done now t, statusXform_done_of_done now t⟩

/-- Witness for C2's amended statement: a `todo` task transitioned to
`done` at `"t1"` gets `closed = "t1"`. -/
theorem C2_closed_refresh_w :
    dget (statusXform "t1" (some "done")
        (save (loadRepo none) "t0"
          [("text", .str "x"), ("status", .str "todo")]).2) "closed"
      = some (.str "t1") := by
  have h := C2_closed_refresh (save (loadRepo none) "t0"
      [("text", .str "x"), ("status", .str "todo")]).1 "t1" "K-001"
      (save (loadRepo none) "t0" [("text", .str "x"), ("status", .str "todo")]).2
      (by decide)
  exact h.2.1 (by decide)

/-! ### Closed-invariant preservation lemmas -/

theorem closedInv_dset_other (t : Dict) (k : String) (v : Value)
    (h1 : k ≠ "closed") (h2 : k ≠ "status") (h : closedInv t) :
    closedInv (dset t k v) := by
  unfold closedInv at h ⊢
  rw [dmem_dset_ne t k "closed" v (Ne.symm h1),
    dget_dset_ne t k "status" v (Ne.symm h2)]
  exact h

theorem closedInv_statusXform (now : String) (st : Option String) (t : Dict)
    (h : closedInv t) : closedInv (statusXform now st t) := by
  cases st with
  | none => exact h
  | some st =>
    simp only [statusXform]
    by_cases hd : st = "done"
    · subst hd
      by_cases hp : dget t "status" = some (.str "done")
      · rw [if_neg (by simp [hp]), if_neg (by simp)]
        unfold closedInv at h ⊢
        rw [dmem_dset_ne _ _ _ _ (by decide : ("closed" : String) ≠ "updated"),
          dmem_dset_ne _ _ _ _ (by decide : ("closed" : String) ≠ "status"),
          dget_dset_ne _ _ _ _ (by decide : ("status" : String) ≠ "updated"),
          dget_dset_self]
        exact ⟨fun _ => rfl, fun _ => h.mpr hp⟩
      · rw [if_pos ⟨by trivial, hp⟩]
        unfold closedInv
        rw [dmem_dset_self,
          dget_dset_ne _ _ _ _ (by decide : ("status" : String) ≠ "closed"),
          dget_dset_ne _ _ _ _ (by decide : ("status" : String) ≠ "updated"),
          dget_dset_self]
        exact ⟨fun _ => rfl, fun _ => rfl⟩
    · rw [if_neg (by simp [hd])]
      by_cases hp : dget t "status" = some (.str "done")
      · rw [if_pos ⟨hp, hd⟩]
        unfold closedInv
        rw [dmem_ddel_self,
          dget_ddel_ne _ _ _ (by decide : ("status" : String) ≠ "closed"),
          dget_dset_ne _ _ _ _ (by decide : ("status" : String) ≠ "updated"),
          dget_dset_self]
        constructor
        · intro hc
          cases hc
        · intro he
          simp only [Option.some.injEq, Value.str.injEq] at he
          exact absurd he hd
      · rw [if_neg (by simp [hp])]
        unfold closedInv at h ⊢
        rw [dmem_dset_ne _ _ _ _ (by decide : ("closed" : String) ≠ "updated"),
          dmem_dset_ne _ _ _ _ (by decide : ("closed" : String) ≠ "status"),
          dget_dset_ne _ _ _ _ (by decide : ("status" : String) ≠ "updated"),
          dget_dset_self]
        constructor
        · intro hc
          exact absurd (h.mp hc) hp
        · intro he
          simp only [Option.some.injEq, Value.str.injEq] at he
          exact absurd he hd

theorem closedInv_textXform (now : String) (tx : Option String) (t : Dict)
    (h : closedInv t) : closedInv (textXform now tx t) := by
  cases tx with
  | none => exact h
  | some tx =>
    exact closedInv_dset_other _ _ _ (by decide) (by decide)
      (closedInv_dset_other _ _ _ (by decide) (by decide) h)

theorem closedInv_tagsXform (now : String) (tg : Option (List String)) (t : Dict)
    (h : closedInv t) : closedInv (tagsXform now tg t) := by
  cases tg with
  | none => exact h
  | some tg =>
    exact closedInv_dset_other _ _ _ (by decide) (by decide)
      (closedInv_dset_other _ _ _ (by decide) (by decide) h)

theorem tasksInv_persist (s : RepoState) (h : ∀ u ∈ s.tasks, closedInv u) :
    tasksInv (persist s) := h

theorem closedInv_updateFirst (tasks : List Dict) (id : String)
    (f : Dict → Dict) (hf : ∀ t, closedInv t → closedInv (f t)) :
    ∀ ts' t', updateFirst tasks id f = some (ts', t') →
    (∀ u ∈ tasks, closedInv u) → ∀ u ∈ ts', closedInv u := by
  induction tasks with
  | nil => intro ts' t' hup; cases hup
  | cons a ts ih =>
    intro ts' t' hup hall
    by_cases h1 : hasId id a
    · simp [updateFirst, h1] at hup
      obtain ⟨hts', _⟩ := hup
      intro u hu
      rw [← hts'] at hu
      rcases List.mem_cons.mp hu with he | hm
      · rw [he]
        exact hf a (hall a (by simp))
      · exact hall u (by simp [hm])
    · cases hr : updateFirst ts id f with
      | none => simp [updateFirst, h1, hr] at hup
      | some p =>
        obtain ⟨ts2, t2⟩ := p
        simp [updateFirst, h1, hr] at hup
        obtain ⟨hts', _⟩ := hup
        intro u hu
        rw [← hts'] at hu
        rcases List.mem_cons.mp hu with he | hm
        · rw [he]
          exact hall a (by simp)
        · exact ih ts2 t2 hr (fun v hv => hall v (by simp [hv])) u hm

theorem closedInv_removeFirst (tasks : List Dict) (id : String) :
    ∀ ts', removeFirst tasks id = some ts' →
    (∀ u ∈ tasks, closedInv u) → ∀ u ∈ ts', closedInv u := by
  induction tasks with
  | nil => intro ts' hrm; cases hrm
  | cons a ts ih =>
    intro ts' hrm hall
    by_cases h1 : hasId id a
    · simp [removeFirst, h1] at hrm
      intro u hu
      rw [← hrm] at hu
      exact hall u (by simp [hu])
    · cases hr : removeFirst ts id with
      | none => simp [removeFirst, h1, hr] at hrm
      | some ts2 =>
        simp [removeFirst, h1, hr] at hrm
        intro u hu
        rw [← hrm] at hu
        rcases List.mem_cons.mp hu with he | hm
        · rw [he]
          exact hall a (by simp)
        · exact ih ts2 hr (fun v hv => hall v (by simp [hv])) u hm

theorem tasksInv_step (s s' : RepoState) (hstep : Step s s')
    (hinv : tasksInv s) : tasksInv s' := by
  cases hstep with
  | save now task =>
    have hnew : closedInv (save s now task).2 := by
      by_cases hid : dmem task "id"
      · rw [(save_of_id s now task hid).1]
        exact closedInv_fixClosed now (stampTimes now task)
      · rw [(save_of_no_id s now task (by simpa using hid)).1]
        exact closedInv_dset_other _ _ _ (by decide) (by decide)
          (closedInv_fixClosed now (stampTimes now task))
    by_cases hid : dmem task "id"
    · rw [(save_of_id s now task hid).2]
      refine tasksInv_persist _ (fun u hu => ?_)
      rcases List.mem_append.mp hu with hm | hm
      · exact hinv u hm
      · rw [List.mem_singleton.mp hm]
        exact hnew
    · rw [(save_of_no_id s now task (by simpa using hid)).2]
      refine tasksInv_persist _ (fun u hu => ?_)
      rcases List.mem_append.mp hu with hm | hm
      · exact hinv u hm
      · rw [List.mem_singleton.mp hm]
        exact hnew
  | status now id st =>
    cases hup : updateFirst s.tasks id (statusXform now st) with
    | none =>
      have he : update_status s now id st = (s, none) := by
        simp [update_status, hup]
      rw [he]
      exact hinv
    | some p =>
      obtain ⟨ts', t'⟩ := p
      have he : (update_status s now id st).1 = persist { s with tasks := ts' } := by
        simp [update_status, hup]
      rw [he]
      exact tasksInv_persist _
        (closedInv_updateFirst s.tasks id _ (closedInv_statusXform now st) ts' t' hup hinv)
  | text now id tx =>
    cases hup : updateFirst s.tasks id (textXform now tx) with
    | none =>
      have he : update_text s now id tx = (s, none) := by
        simp [update_text, hup]
      rw [he]
      exact hinv
    | some p =>
      obtain ⟨ts', t'⟩ := p
      have he : (update_text s now id tx).1 = persist { s with tasks := ts' } := by
        simp [update_text, hup]
      rw [he]
      exact tasksInv_persist _
        (closedInv_updateFirst s.tasks id _ (closedInv_textXform now tx) ts' t' hup hinv)
  | tags now id tg =>
    cases hup : updateFirst s.tasks id (tagsXform now tg) with
    | none =>
      have he : update_tags s now id tg = (s, none) := by
        simp [update_tags, hup]
      rw [he]
      exact hinv
    | some p =>
      obtain ⟨ts', t'⟩ := p
      have he : (update_tags s now id tg).1 = persist { s with tasks := ts' } := by
        simp [update_tags, hup]
      rw [he]
      exact tasksInv_persist _
        (closedInv_updateFirst s.tasks id _ (closedInv_tagsXform now tg) ts' t' hup hinv)
  | order now id o =>
    cases hup : updateFirst s.tasks id
        (fun task => dset (dset task "order" (.int o)) "updated" (.str now)) with
    | none =>
      have he : update_order s now id o = (s, none) := by
        simp [update_order, hup]
      rw [he]
      exact hinv
    | some p =>
      obtain ⟨ts', t'⟩ := p
      have he : (update_order s now id o).1 = persist { s with tasks := ts' } := by
        simp [update_order, hup]
      rw [he]
      refine tasksInv_persist _
        (closedInv_updateFirst s.tasks id _ (fun t ht => ?_) ts' t' hup hinv)
      exact closedInv_dset_other _ _ _ (by decide) (by decide)
        (closedInv_dset_other _ _ _ (by decide) (by decide) ht)
  | delete id =>
    cases hrm : removeFirst s.tasks id with
    | none =>
      have he : deleteTask s id = (s, false) := by
        simp [deleteTask, hrm]
      rw [he]
      exact hinv
    | some ts' =>
      have he : (deleteTask s id).1 = persist { s with tasks := ts' } := by
        simp [deleteTask, hrm]
      rw [he]
      exact tasksInv_persist _
        (closedInv_removeFirst s.tasks id ts' hrm hinv)

/-! ### Claim C1 -/

/-- C1 counterexample: `batch_update` is a repository operation that
breaks the invariant — applying `{K-001: {status: done}}` to a `todo`
task sets `status = "done"` without adding `closed`. -/
theorem C1_counterexample :
    ¬ tasksInv (batch_update (save (loadRepo none) "t0"
        [("text", .str "x"), ("status", .str "todo")]).1 "t1"
        [("K-001", [("status", Value.str "done")])]).1 := by
  decide

/-- C1 amended: the invariant `closed present ⇔ status == "done"` holds
for every task after any sequence of `save`, `update_status`,
`update_text`, `update_tags`, `update_order` and `delete` operations
(`batch_update` excluded: it applies raw attribute dicts and can violate
the invariant). -/
theorem C1_closed_invariant (s s' : RepoState) (hinv : tasksInv s)
    (h : Relation.ReflTransGen Step s s') : tasksInv s' := by
  induction h with
  | refl => exact hinv
  | tail _ hstep ih => exact tasksInv_step _ _ hstep ih

/-- Witness for C1: from the empty store, a save followed by a status
update to `done` keeps the invariant. -/
theorem C1_closed_invariant_w :
    tasksInv (update_status (save (loadRepo none) "t0"
        [("text", .str "x"), ("status", .str "todo")]).1 "t1" "K-001"
        (some "done")).1 :=
  C1_closed_invariant (loadRepo none) _ (by decide)
    (Relation.ReflTransGen.tail
      (Relation.ReflTransGen.single (Step.save (loadRepo none) "t0"
        [("text", .str "x"), ("status", .str "todo")]))
      (Step.status _ "t1" "K-001" (some "done")))

/-! ### Frame lemmas for single-field updates -/

theorem dget_statusXform_some_other (now st : String) (t : Dict) (k : String)
    (h1 : k ≠ "status") (h2 : k ≠ "updated") (h3 : k ≠ "closed") :
    dget (statusXform now (some st) t) k = dget t k := by
  simp only [statusXform]
  split
  · rw [dget_dset_ne _ _ _ _ h3, dget_dset_ne _ _ _ _ h2, dget_dset_ne _ _ _ _ h1]
  · split
    · rw [dget_ddel_ne _ _ _ h3, dget_dset_ne _ _ _ _ h2, dget_dset_ne _ _ _ _ h1]
    · rw [dget_dset_ne _ _ _ _ h2, dget_dset_ne _ _ _ _ h1]

theorem dget_statusXform_some_updated (now st : String) (t : Dict) :
    dget (statusXform now (some st) t) "updated" = some (.str now) := by
  simp only [statusXform]
  split
  · rw [dget_dset_ne _ _ _ _ (by decide : ("updated" : String) ≠ "closed"),
      dget_dset_self]
  · split
    · rw [dget_ddel_ne _ _ _ (by decide : ("updated" : String) ≠ "closed"),
        dget_dset_self]
    · rw [dget_dset_self]

theorem dget_opXform_other (op : FieldOp) (now : String) (t : Dict) (k : String)
    (h : k ∉ opKeys op) :
    dget (opXform op now t) k = dget t k := by
  cases op with
  | status st =>
    exact dget_statusXform_some_other now st t k
      (fun he => h (by simp [opKeys, he]))
      (fun he => h (by simp [opKeys, he]))
      (fun he => h (by simp [opKeys, he]))
  | text tx =>
    show dget (dset (dset t "text" (.str tx)) "updated" (.str now)) k = dget t k
    rw [dget_dset_ne _ _ _ _ (fun he => h (by simp [opKeys, he])),
      dget_dset_ne _ _ _ _ (fun he => h (by simp [opKeys, he]))]
  | tags tg =>
    show dget (dset (dset t "tags" (.strList tg)) "updated" (.str now)) k = dget t k
    rw [dget_dset_ne _ _ _ _ (fun he => h (by simp [opKeys, he])),
      dget_dset_ne _ _ _ _ (fun he => h (by simp [opKeys, he]))]
  | order o =>
    show dget (dset (dset t "order" (.int o)) "updated" (.str now)) k = dget t k
    rw [dget_dset_ne _ _ _ _ (fun he => h (by simp [opKeys, he])),
      dget_dset_ne _ _ _ _ (fun he => h (by simp [opKeys, he]))]

theorem dget_opXform_created (op : FieldOp) (now : String) (t : Dict) :
    dget (opXform op now t) "created" = dget t "created" := by
  refine dget_opXform_other op now t "created" ?_
  cases op with
  | status st =>
    show ("created" : String) ∉ ["status", "updated", "closed"]
    decide
  | text tx =>
    show ("created" : String) ∉ ["text", "updated"]
    decide
  | tags tg =>
    show ("created" : String) ∉ ["tags", "updated"]
    decide
  | order o =>
    show ("created" : String) ∉ ["order", "updated"]
    decide

theorem dget_opXform_updated (op : FieldOp) (now : String) (t : Dict) :
    dget (opXform op now t) "updated" = some (.str now) := by
  cases op with
  | status st => exact dget_statusXform_some_updated now st t
  | text tx => exact dget_dset_self _ _ _
  | tags tg => exact dget_dset_self _ _ _
  | order o => exact dget_dset_self _ _ _

theorem runOp_found (op : FieldOp) (s : RepoState) (now id : String) (t : Dict)
    (h : getTask s id = some t) :
    ∃ pre post, s.tasks = pre ++ t :: post ∧
      runOp op s now id
        = (persist { s with tasks := pre ++ opXform op now t :: post },
           some (opXform op now t)) := by
  cases op with
  | status st =>
    obtain ⟨pre, post, hts, _, _, hup⟩ :=
      updateFirst_found s.tasks id (statusXform now (some st)) t h
    exact ⟨pre, post, hts, by simp [runOp, update_status, opXform, hup]⟩
  | text tx =>
    obtain ⟨pre, post, hts, _, _, hup⟩ :=
      updateFirst_found s.tasks id (textXform now (some tx)) t h
    exact ⟨pre, post, hts, by simp [runOp, update_text, opXform, hup]⟩
  | tags tg =>
    obtain ⟨pre, post, hts, _, _, hup⟩ :=
      updateFirst_found s.tasks id (tagsXform now (some tg)) t h
    exact ⟨pre, post, hts, by simp [runOp, update_tags, opXform, hup]⟩
  | order o =>
    obtain ⟨pre, post, hts, _, _, hup⟩ := updateFirst_found s.tasks id
      (fun task => dset (dset task "order" (.int o)) "updated" (.str now)) t h
    exact ⟨pre, post, hts, by simp [runOp, update_order, opXform, hup]⟩

/-! ### Batch created-field lemmas -/

theorem ulookup_mem (updates : List (String × Dict)) (k : String) (d : Dict)
    (h : ulookup updates k = some d) : (k, d) ∈ updates := by
  induction updates with
  | nil => cases h
  | cons p rest ih =>
    obtain ⟨k0, d0⟩ := p
    by_cases h1 : k0 = k
    · subst h1
      simp [ulookup] at h
      simp [h]
    · simp [ulookup, h1] at h
      exact List.mem_cons_of_mem _ (ih h)

theorem dget_foldl_dset_no_key (attrs : Dict) (k : String) :
    dmem attrs k = false → ∀ (t : Dict),
    dget (attrs.foldl (fun a kv => dset a kv.1 kv.2) t) k = dget t k := by
  induction attrs with
  | nil =>
    intro _ t
    rfl
  | cons kv rest ih =>
    intro h t
    obtain ⟨k0, v0⟩ := kv
    have hk1 : k0 ≠ k := by
      intro he
      rw [dmem, dget, if_pos he] at h
      cases h
    have hk2 : dmem rest k = false := by
      rw [dmem, dget, if_neg hk1] at h
      exact h
    rw [List.foldl_cons, ih hk2 (dset t k0 v0), dget_dset_ne _ _ _ _ (Ne.symm hk1)]

theorem batchApply_created (now : String) (attrs t : Dict)
    (h : dmem attrs "created" = false) :
    dget (batchApply now attrs t) "created" = dget t "created" := by
  unfold batchApply
  rw [dget_dset_ne _ _ _ _ (by decide : ("created" : String) ≠ "updated"),
    dget_foldl_dset_no_key attrs "created" h t]

theorem batchGo_created (now : String) (updates : List (String × Dict))
    (hupd : ∀ p ∈ updates, dmem p.2 "created" = false) : ∀ ts : List Dict,
    ((batchGo now updates ts).1).map (fun t => dget t "created")
      = ts.map (fun t => dget t "created") := by
  intro ts
  induction ts with
  | nil => rfl
  | cons t ts ih =>
    by_cases h : batchHit updates t
    · have hattr : dmem (attrsFor updates t) "created" = false := by
        unfold attrsFor
        cases hg : dget t "id" with
        | none => rfl
        | some v =>
          cases v with
          | str tid =>
            show dmem ((ulookup updates tid).getD []) "created" = false
            cases hu : ulookup updates tid with
            | none => rfl
            | some attrs =>
              exact hupd (tid, attrs) (ulookup_mem updates tid attrs hu)
          | int n => rfl
          | bool b => rfl
          | strList l => rfl
      simp [batchGo, h, ih, batchApply_created now _ t hattr]
    · simp [batchGo, h, ih]

/-! ### Claim C9 -/

theorem save_created_of_no_id (s : RepoState) (now : String) (task : Dict)
    (h : dmem task "id" = false) :
    dget (save s now task).2 "created" = some (.str now) ∧
    dget (save s now task).2 "updated" = some (.str now) := by
  rw [(save_of_no_id s now task h).1]
  constructor
  · rw [dget_dset_ne _ _ _ _ (by decide : ("created" : String) ≠ "id"),
      dget_fixClosed_other now _ "created" (by decide),
      dget_stampTimes_created_of_no_id now task h]
  · rw [dget_dset_ne _ _ _ _ (by decide : ("updated" : String) ≠ "id"),
      dget_fixClosed_other now _ "updated" (by decide),
      dget_stampTimes_updated now task]

theorem save_created_of_resave (s : RepoState) (now : String) (task : Dict)
    (hid : dmem task "id" = true) (hc : dmem task "created" = true) :
    dget (save s now task).2 "created" = dget task "created" := by
  rw [(save_of_id s now task hid).1,
    dget_fixClosed_other now _ "created" (by decide),
    dget_stampTimes_created_of_resave now task hid hc]

/-- C9 counterexample: `batch_update` is listed among the operations that
never change `created`, yet applying `{K-001: {created: t9}}` overwrites
the stored `created` (originally `"t0"`) with `"t9"`. -/
theorem C9_counterexample :
    (batch_update (save (loadRepo none) "t0"
        [("text", .str "x"), ("status", .str "todo")]).1 "t1"
        [("K-001", [("created", Value.str "t9")])]).1.tasks.map
        (fun t => dget t "created")
      = [some (.str "t9")] ∧
    ("t9" : String) ≠ "t0" := by
  decide

/-- C9 amended: `created` is stamped at first save (no preset id:
`created = updated = now`) and kept on re-save; the four single-field
updates never change it: each one maps the found task through its
transformation, which changes only the named field, `updated` (re-stamped
to now) and — for status only — `closed`, leaving every other field and
every other task unchanged; `batch_update` preserves `created` only as
long as no attribute dict names `created` (it can overwrite any field). -/
theorem C9_created_immutable (s : RepoState) (now id : String) :
    (∀ task, dmem task "id" = false →
        dget (save s now task).2 "created" = some (.str now) ∧
        dget (save s now task).2 "updated" = some (.str now)) ∧
    (∀ task, dmem task "id" = true → dmem task "created" = true →
        dget (save s now task).2 "created" = dget task "created") ∧
    (∀ op t, getTask s id = some t →
        (runOp op s now id).2 = some (opXform op now t) ∧
        dget (opXform op now t) "created" = dget t "created" ∧
        dget (opXform op now t) "updated" = some (.str now) ∧
        (∀ k, k ∉ opKeys op → dget (opXform op now t) k = dget t k) ∧
        (∃ pre post, s.tasks = pre ++ t :: post ∧
            (runOp op s now id).1.tasks = pre ++ opXform op now t :: post)) ∧
    (∀ updates, (∀ p ∈ updates, dmem p.2 "created" = false) →
        (batch_update s now updates).1.tasks.map (fun t => dget t "created")
          = s.tasks.map (fun t => dget t "created")) := by
  refine ⟨fun task h => save_created_of_no_id s now task h,
    fun task hid hc => save_created_of_resave s now task hid hc,
    fun op t ht => ?_, fun updates hupd => ?_⟩
  · obtain ⟨pre, post, hts, hrun⟩ := runOp_found op s now id t ht
    exact ⟨by rw [hrun], dget_opXform_created op now t,
      dget_opXform_updated op now t, dget_opXform_other op now t,
      pre, post, hts, by rw [hrun]; rfl⟩
  · show ((batchGo now updates s.tasks).1).map _ = _
    exact batchGo_created now updates hupd s.tasks

/-- Witness for C9: a text update on the concrete task `K-001` keeps
`created` unchanged. -/
theorem C9_created_immutable_w :
    dget (opXform (FieldOp.text "y") "t1"
        (save (loadRepo none) "t0"
          [("text", .str "x"), ("status", .str "todo")]).2) "created"
      = dget (save (loadRepo none) "t0"
          [("text", .str "x"), ("status", .str "todo")]).2 "created" := by
  have h := C9_created_immutable (save (loadRepo none) "t0"
      [("text", .str "x"), ("status", .str "todo")]).1 "t1" "K-001"
  exact (h.2.2.1 (FieldOp.text "y")
      (save (loadRepo none) "t0" [("text", .str "x"), ("status", .str "todo")]).2
      (by decide)).2.1

/-! ### Id-assignment lemmas -/

theorem save_no_id_state (s : RepoState) (now : String) (task : Dict)
    (h : dmem task "id" = false) :
    (save s now task).1.tasks = s.tasks ++ [(save s now task).2] ∧
    (save s now task).1.counter = s.counter + 1 ∧
    (save s now task).1.settings = s.settings ∧
    dget (save s now task).2 "id" = some (.str (fmtId s.counter)) := by
  obtain ⟨h2, h1⟩ := save_of_no_id s now task h
  refine ⟨?_, ?_, ?_, ?_⟩
  · rw [h1]
    rfl
  · rw [h1]
    rfl
  · rw [h1]
    rfl
  · rw [h2]
    exact dget_dset_self _ _ _

theorem saveAll_spec (ts : List Dict) : ∀ (s : RepoState) (now : String),
    (∀ t ∈ ts, dmem t "id" = false) →
    (saveAll s now ts).counter = s.counter + ts.length ∧
    (saveAll s now ts).settings = s.settings ∧
    ∃ news : List Dict,
      (saveAll s now ts).tasks = s.tasks ++ news ∧
      news.map (fun t => dget t "id")
        = (List.range ts.length).map
            (fun i => some (.str (fmtId (s.counter + i)))) := by
  induction ts with
  | nil =>
    intro s now _
    exact ⟨rfl, rfl, [], by simp [saveAll], by simp⟩
  | cons t ts ih =>
    intro s now hno
    have ht : dmem t "id" = false := hno t (by simp)
    obtain ⟨htk, hc, hst, hid⟩ := save_no_id_state s now t ht
    have hstep : saveAll s now (t :: ts) = saveAll (save s now t).1 now ts := rfl
    obtain ⟨ihc, ihs, news, ihtasks, ihids⟩ := ih (save s now t).1 now
      (fun u hu => hno u (List.mem_cons_of_mem _ hu))
    refine ⟨?_, ?_, (save s now t).2 :: news, ?_, ?_⟩
    · rw [hstep, ihc, hc]
      simp only [List.length_cons]
      omega
    · rw [hstep, ihs, hst]
    · rw [hstep, ihtasks, htk]
      simp
    · simp only [List.map_cons]
      rw [hid, ihids, hc]
      simp only [List.length_cons]
      rw [List.range_succ_eq_map, List.map_cons, List.map_map]
      have harith : (fun i => some (Value.str (fmtId (s.counter + i)))) ∘ Nat.succ
          = fun i => some (Value.str (fmtId (s.counter + 1 + i))) := by
        funext i
        show some (Value.str (fmtId (s.counter + (i + 1))))
          = some (Value.str (fmtId (s.counter + 1 + i)))
        have hn : s.counter + (i + 1) = s.counter + 1 + i := by omega
        rw [hn]
      rw [harith]
      simp

theorem fmtId_range_nodup (c n : Nat) :
    ((List.range n).map (fun i => fmtId (c + i))).Nodup := by
  have hinj : Function.Injective (fun i => fmtId (c + i)) := by
    intro a b h
    have h2 := fmtId_inj h
    omega
  exact (List.nodup_range n).map hinj

theorem updateCounter_eq (tasks : List Dict) :
    updateCounter tasks = maxIdNum tasks + 1 := by
  unfold updateCounter
  by_cases h : maxIdNum tasks > 0
  · simp [h]
  · simp only [h, if_false]
    omega

theorem loadRepo_counter (file : Option Yaml) :
    (loadRepo file).counter = maxIdNum (loadRepo file).tasks + 1 :=
  updateCounter_eq (loadDoc file).2

theorem new_ids_fresh (file : Option Yaml) (now : String) (ts : List Dict)
    (hno : ∀ t ∈ ts, dmem t "id" = false) :
    ∀ u ∈ (saveAll (loadRepo file) now ts).tasks.drop
        (loadRepo file).tasks.length,
      ∀ t ∈ (loadRepo file).tasks, dget u "id" ≠ dget t "id" := by
  obtain ⟨hc, hs, news, htasks, hids⟩ := saveAll_spec ts (loadRepo file) now hno
  intro u hu t htm heq
  rw [htasks, List.drop_left] at hu
  have hmm : dget u "id" ∈ news.map (fun t => dget t "id") :=
    List.mem_map_of_mem _ hu
  rw [hids] at hmm
  obtain ⟨i, hi, hval⟩ := List.mem_map.mp hmm
  have hdt : dget t "id"
      = some (Value.str (fmtId ((loadRepo file).counter + i))) := by
    rw [← heq, ← hval]
  have htin : taskIdNum t = some ((loadRepo file).counter + i) := by
    unfold taskIdNum
    rw [hdt]
    exact idNum_fmtId _
  have hle := maxIdNum_ge (loadRepo file).tasks t _ htm htin
  have hcnt := loadRepo_counter file
  omega

/-! ### Claim C3 -/

/-- C3: from a fresh empty store, saving N id-less records assigns exactly
the ids `K-001 .. K-00N` in order; those ids are pairwise distinct and
their numeric suffixes `1..N` are assigned in increasing order; on
construction over an existing document the counter is recomputed as
`max numeric K- suffix + 1` (1 when there is none); and ids assigned
after a reload never collide with any id present in the loaded
document. -/
theorem C3_id_assignment (now : String) (ts : List Dict) (file : Option Yaml)
    (hno : ∀ t ∈ ts, dmem t "id" = false) :
    ((saveAll (loadRepo none) now ts).tasks.map (fun t => dget t "id")
        = (List.range ts.length).map (fun i => some (.str (fmtId (1 + i))))) ∧
    ((List.range ts.length).map (fun i => fmtId (1 + i))).Nodup ∧
    (∀ i, idNum (fmtId (1 + i)) = some (1 + i)) ∧
    ((loadRepo file).counter = maxIdNum (loadRepo file).tasks + 1) ∧
    (∀ u ∈ (saveAll (loadRepo file) now ts).tasks.drop
        (loadRepo file).tasks.length,
      ∀ t ∈ (loadRepo file).tasks, dget u "id" ≠ dget t "id") := by
  refine ⟨?_, fmtId_range_nodup 1 ts.length, fun i => idNum_fmtId (1 + i),
    loadRepo_counter file, new_ids_fresh file now ts hno⟩
  obtain ⟨hc, hs, news, htasks, hids⟩ := saveAll_spec ts (loadRepo none) now hno
  rw [htasks]
  have hempty : (loadRepo none).tasks = [] := rfl
  rw [hempty, List.nil_append, hids]
  have hcount : (loadRepo none).counter = 1 := rfl
  rw [hcount]

/-- Witness for C3: two fresh creations get `K-001`, `K-002`; loading a
document whose only task is `K-007` sets the counter to 8. -/
theorem C3_id_assignment_w :
    ((saveAll (loadRepo none) "t0"
        [[("text", Value.str "a"), ("status", Value.str "todo")],
         [("text", Value.str "b"), ("status", Value.str "todo")]]).tasks.map
        (fun t => dget t "id"))
      = [some (.str "K-001"), some (.str "K-002")] ∧
    (loadRepo (some (encodeDoc [] [[("id", .str "K-007")]]))).counter = 8 := by
  have h := C3_id_assignment "t0"
      [[("text", Value.str "a"), ("status", Value.str "todo")],
       [("text", Value.str "b"), ("status", Value.str "todo")]]
      (some (encodeDoc [] [[("id", .str "K-007")]])) (by decide)
  constructor
  · rw [h.1]
    decide
  · rw [h.2.2.2.1]
    decide
